import Mathlib

/-!
Shallow embedding of the `text-summarizer` analyzer core (`src/main.rs`).

Text content is modelled as `List Char`, where a Lean `Char` is one Unicode
scalar value, exactly matching the elements produced by Rust's `str::chars()`.
UTF-8 byte lengths (Rust's `str::len` and byte slicing) are recovered through
`Char.utf8Size`.  Rust's `char::is_whitespace` (Unicode `White_Space`) is
embedded as the explicit code-point table `rustIsWhitespace`.  Rust's
case mappings are embedded by core's `Char.toLower`/`Char.toUpper`
(ASCII-range mapping, the identity elsewhere), and `char::is_alphabetic`
by `rustIsAlphabetic`, the Unicode `Alphabetic` property restricted to the
Basic Latin, Latin-1 and Latin Extended-A/B blocks — the repertoire used in
this development; both agree with Rust on that repertoire.

Rust's `HashMap` iteration order is unspecified but deterministic; it is
modelled by association lists in first-insertion order (a deterministic
stand-in).  None of the verified properties depend on that order.

The `f64` statistics (`avg_word_length`, `avg_line_length`, `comment_ratio`)
are embedded with exact rational arithmetic over `Nat` numerator/denominator
(`fmtRatio1`, modelling `format!` with precision 1); the embedding agrees
with `f64` wherever the quotient is exactly representable and not a rounding
tie, which covers every value these theorems evaluate.

Fallible code is embedded with `Option`: `analyze_log` returns `none`
exactly when the Rust original panics (byte slicing `&error[0..100]` at a
position that is not a character boundary).
-/

/-- Shorthand turning a string literal into the `List Char` content model. -/
def S (s : String) : List Char := s.data

/-- Rust `char::is_whitespace`: the Unicode `White_Space` code points. -/
def rustIsWhitespace (c : Char) : Bool :=
  decide ((9 ≤ c.toNat ∧ c.toNat ≤ 13) ∨ c.toNat = 32 ∨ c.toNat = 133 ∨
    c.toNat = 160 ∨ c.toNat = 5760 ∨ (8192 ≤ c.toNat ∧ c.toNat ≤ 8202) ∨
    c.toNat = 8232 ∨ c.toNat = 8233 ∨ c.toNat = 8239 ∨ c.toNat = 8287 ∨
    c.toNat = 12288)

/-- Rust `char::is_alphabetic` (Unicode `Alphabetic`), restricted to the
Basic Latin, Latin-1 and Latin Extended-A/B blocks: ASCII letters, plus
U+00C0..U+024F without the two operators U+00D7 (multiplication sign) and
U+00F7 (division sign). -/
def rustIsAlphabetic (c : Char) : Bool :=
  decide ((65 ≤ c.toNat ∧ c.toNat ≤ 90) ∨ (97 ≤ c.toNat ∧ c.toNat ≤ 122) ∨
    (192 ≤ c.toNat ∧ c.toNat ≤ 591 ∧ c.toNat ≠ 215 ∧ c.toNat ≠ 247))

/-- UTF-8 byte length of a character sequence: Rust's `str::len`. -/
def utf8Len (l : List Char) : Nat := (l.map Char.utf8Size).sum

/-- Rust byte slicing `&s[0..n]`: the characters spanning the first `n`
UTF-8 bytes, or `none` when `n` does not fall on a character boundary
(where Rust panics). -/
def takeBytes : Nat → List Char → Option (List Char)
  | 0, _ => some []
  | _ + 1, [] => none
  | n + 1, c :: cs =>
    if c.utf8Size ≤ n + 1 then (takeBytes (n + 1 - c.utf8Size) cs).map (c :: ·)
    else none

/-- First occurrence of `pat` as a contiguous subsequence of `hay`
(Rust `str::find` for a pattern of ASCII characters; the returned index
counts characters, which for the ASCII patterns used coincides with
Rust's byte index at every occurrence). -/
def findSub (pat : List Char) : List Char → Option Nat
  | [] => if pat.isPrefixOf ([] : List Char) then some 0 else none
  | c :: rest =>
    if pat.isPrefixOf (c :: rest) then some 0
    else (findSub pat rest).map (· + 1)

/-- Rust `str::contains` for a string pattern. -/
def containsSub (pat hay : List Char) : Bool := (findSub pat hay).isSome

/-- Helper for `countSubstr`: the skip counter consumes the remainder of a
match so that counting is non-overlapping. -/
def countSubstrAux (pat : List Char) : List Char → Nat → Nat
  | [], _ => 0
  | _ :: rest, k + 1 => countSubstrAux pat rest k
  | c :: rest, 0 =>
    if pat ≠ [] ∧ pat.isPrefixOf (c :: rest) then
      1 + countSubstrAux pat rest (pat.length - 1)
    else countSubstrAux pat rest 0

/-- Rust `str::matches(pat).count()`: non-overlapping occurrences of `pat`,
scanning left to right. -/
def countSubstr (pat hay : List Char) : Nat := countSubstrAux pat hay 0

/-- Rust `str::trim`: strip leading and trailing Unicode whitespace. -/
def rustTrim (l : List Char) : List Char :=
  ((l.dropWhile rustIsWhitespace).reverse.dropWhile rustIsWhitespace).reverse

/-- Split at every newline character, keeping empty segments
(`n` newlines produce `n + 1` segments). -/
def splitNl : List Char → List (List Char)
  | [] => [[]]
  | c :: rest =>
    if c = '\n' then [] :: splitNl rest
    else
      match splitNl rest with
      | [] => [[c]]
      | s :: ss => (c :: s) :: ss

/-- Strip one trailing carriage return (the `\r` of a `\r\n` line ending). -/
def stripCr (l : List Char) : List Char :=
  match l.getLast? with
  | some '\r' => l.dropLast
  | _ => l

/-- Rust `str::lines`: newline-delimited segments, `\r\n` treated as one
terminator, the final newline optional (no trailing empty line). -/
def rustLines (content : List Char) : List (List Char) :=
  let segs := splitNl content
  let init := segs.dropLast.map stripCr
  match segs.getLast? with
  | none => init
  | some last => if last = [] then init else init ++ [last]

/-- Rust `str::split_whitespace`: the maximal runs of non-whitespace
characters, in order. -/
def splitWs : List Char → List (List Char)
  | [] => []
  | c :: rest =>
    if rustIsWhitespace c then splitWs rest
    else
      match rest with
      | [] => [[c]]
      | d :: _ =>
        if rustIsWhitespace d then [c] :: splitWs rest
        else
          match splitWs rest with
          | [] => [[c]]
          | w :: ws2 => (c :: w) :: ws2

/-- The `(line_count, word_count, char_count)` triple of
`TextAnalyzer::basic_stats`. -/
def basic_stats (content : List Char) : Nat × Nat × Nat :=
  ((rustLines content).length, (splitWs content).length, content.length)

/-- Token normalization of `get_word_frequency`:
`word.to_lowercase().chars().filter(|c| c.is_alphabetic()).collect()`. -/
def normalizeWord (w : List Char) : List Char :=
  (w.map Char.toLower).filter rustIsAlphabetic

/-- The `*map.entry(k).or_insert(0) += 1` update on the association-list
model of a `HashMap` counter: bump an existing key, or append a new key
with count 1. -/
def bump {α : Type} [DecidableEq α] (k : α) : List (α × Nat) → List (α × Nat)
  | [] => [(k, 1)]
  | (k2, c) :: rest =>
    if k2 = k then (k2, c + 1) :: rest else (k2, c) :: bump k rest

/-- Insert one entry into a list that is sorted by count descending. -/
def insertDesc {α : Type} (p : α × Nat) : List (α × Nat) → List (α × Nat)
  | [] => [p]
  | q :: rest => if p.2 > q.2 then p :: q :: rest else q :: insertDesc p rest

/-- Model of `sort_by(|a, b| b.1.cmp(&a.1))`: sort by count descending
(the order of equal counts is unspecified in the source, which sorts an
unordered map's iteration order; any descending order is a faithful model). -/
def sortDesc {α : Type} (l : List (α × Nat)) : List (α × Nat) :=
  l.foldr insertDesc []

/-- `TextAnalyzer::get_word_frequency`: count the normalized tokens whose
UTF-8 byte length exceeds 2 (`clean_word.len() > 2` measures bytes), then
sort by count descending. -/
def get_word_frequency (content : List Char) : List (List Char × Nat) :=
  sortDesc ((splitWs content).foldl
    (fun m w =>
      let cw := normalizeWord w
      if cw ≠ [] ∧ utf8Len cw > 2 then bump cw m else m) [])

/-- The five file kinds of `enum FileType`. -/
inductive FileType where
  | Text | Markdown | Log | RustCode | Unknown
deriving DecidableEq

/-- The summary record produced by every analyzer (`struct FileSummary`).
The `statistics` map is modelled as an association list in insertion
order. -/
structure FileSummary where
  file_type : FileType
  line_count : Nat
  word_count : Nat
  char_count : Nat
  key_insights : List String
  statistics : List (String × String)
deriving DecidableEq

/-- `FileType::from_extension`, applied to the extension string already
extracted from the path (`path.extension().and_then(|s| s.to_str())`):
a case-sensitive match on the fixed table. -/
def from_extension (ext : Option String) : FileType :=
  match ext with
  | some e =>
    if e = "txt" then FileType.Text
    else if e = "md" then FileType.Markdown
    else if e = "log" then FileType.Log
    else if e = "rs" then FileType.RustCode
    else FileType.Unknown
  | none => FileType.Unknown

/-- Lookup in the association-list model of the `statistics` map. -/
def statLookup (k : String) (m : List (String × String)) : Option String :=
  (m.find? (fun p => decide (p.1 = k))).map (fun p => p.2)

/-- Format the exact rational `a / b` with one decimal digit, rounding the
tenths half up: the model of `format!` with precision 1 applied to the
`f64` quotient; it agrees with `f64` wherever the quotient is exactly
representable and not a rounding tie. Callers guard `b = 0` themselves
(passing `0 / 1` for a literal `0.0`). -/
def fmtRatio1 (a b : Nat) : String :=
  let t := (20 * a + b) / (2 * b)
  toString (t / 10) ++ "." ++ toString (t % 10)

/-- `TextAnalyzer::analyze_text`: top-five frequent words of byte length
greater than 3, plus average word and line lengths. -/
def analyze_text (content : List Char) : FileSummary :=
  let (line_count, word_count, char_count) := basic_stats content
  let word_freq := get_word_frequency content
  let top_words := ((word_freq.filter (fun p => utf8Len p.1 > 3)).take 5).map
    (fun p => String.mk p.1 ++ " (" ++ toString p.2 ++ ")")
  let insights :=
    if top_words ≠ [] then
      ["Most frequent words: " ++ String.intercalate ", " top_words]
    else []
  let awl :=
    if word_count > 0 then
      fmtRatio1 ((splitWs content).map List.length).sum word_count
    else fmtRatio1 0 1
  let all :=
    if line_count > 0 then fmtRatio1 char_count line_count
    else fmtRatio1 0 1
  { file_type := FileType.Text
    line_count := line_count
    word_count := word_count
    char_count := char_count
    key_insights := insights
    statistics := [("avg_word_length", awl), ("avg_line_length", all)] }

/-- Headers collected by `analyze_markdown`: for each line whose trimmed
form starts with `#`, the count of leading `#` and the remaining text. -/
def mdHeaders (content : List Char) : List (Nat × List Char) :=
  (rustLines content).filterMap (fun line =>
    let trimmed := rustTrim line
    if (S "#").isPrefixOf trimmed then
      some ((trimmed.takeWhile (· == '#')).length,
        rustTrim (trimmed.dropWhile (· == '#')))
    else none)

/-- Link occurrences counted by `analyze_markdown`: `](` matches summed
over the raw lines. -/
def mdLinks (content : List Char) : Nat :=
  ((rustLines content).map (countSubstr (S "]("))).sum

/-- Image occurrences counted by `analyze_markdown`: `![` matches summed
over the raw lines. -/
def mdImages (content : List Char) : Nat :=
  ((rustLines content).map (countSubstr (S "!["))).sum

/-- Fence-marker lines counted by `analyze_markdown`: lines whose trimmed
form starts with three backticks. -/
def mdFences (content : List Char) : Nat :=
  (rustLines content).countP (fun line => (S "```").isPrefixOf (rustTrim line))

/-- `TextAnalyzer::analyze_markdown`. -/
def analyze_markdown (content : List Char) : FileSummary :=
  let (line_count, word_count, char_count) := basic_stats content
  let headers := mdHeaders content
  let insights :=
    if headers ≠ [] then
      ["Document structure: " ++ String.intercalate ", " ((headers.take 5).map
        (fun p => "H" ++ toString p.1 ++ ": " ++ String.mk p.2))]
    else []
  { file_type := FileType.Markdown
    line_count := line_count
    word_count := word_count
    char_count := char_count
    key_insights := insights
    statistics :=
      [("headers", toString headers.length),
       ("links", toString (mdLinks content)),
       ("images", toString (mdImages content)),
       ("code_blocks", toString (mdFences content / 2))] }

/-- The names of the five severity tokens scanned by `analyze_log`. -/
def levelNames : List String := ["ERROR", "WARN", "INFO", "DEBUG", "TRACE"]

/-- The severity counters of `analyze_log`: for every line and every token
contained in the uppercased line, bump that token's counter. -/
def logLevels (content : List Char) : List (String × Nat) :=
  (rustLines content).foldl
    (fun m line =>
      let upper := line.map Char.toUpper
      levelNames.foldl
        (fun m2 lv => if containsSub (S lv) upper then bump lv m2 else m2) m)
    []

/-- The error-line test of `analyze_log`: the uppercased line contains
`ERROR`, `EXCEPTION` or `FAIL`. -/
def logErrLine (line : List Char) : Bool :=
  let upper := line.map Char.toUpper
  containsSub (S "ERROR") upper || containsSub (S "EXCEPTION") upper ||
    containsSub (S "FAIL") upper

/-- The error lines collected by `analyze_log`, in encounter order. -/
def logErrors (content : List Char) : List (List Char) :=
  (rustLines content).filter logErrLine

/-- Timestamp-candidate extraction of `analyze_log`: a line of more than 10
bytes containing `:`, `-` or `/` contributes its first whitespace-delimited
token when that token contains `:` or `-`. -/
def tsOfLine (line : List Char) : Option (List Char) :=
  if utf8Len line > 10 ∧
      (line.contains ':' ∨ line.contains '-' ∨ line.contains '/') then
    match splitWs line with
    | [] => none
    | p :: _ => if p.contains ':' ∨ p.contains '-' then some p else none
  else none

/-- The timestamp candidates collected by `analyze_log`, in line order. -/
def logTimestamps (content : List Char) : List (List Char) :=
  (rustLines content).filterMap tsOfLine

/-- Cardinality of `timestamps.into_iter().collect::<HashSet<_>>()`. -/
def distinctCount (l : List (List Char)) : Nat :=
  (l.foldl (fun acc t => if t ∈ acc then acc else t :: acc) []).length

/-- The severity insight of `analyze_log` (emitted when any counter is
non-zero). -/
def levelsIns (content : List Char) : List String :=
  if logLevels content ≠ [] then
    ["Log levels: " ++ String.intercalate ", "
      ((logLevels content).map (fun p => p.1 ++ ": " ++ toString p.2))]
  else []

/-- The time-range insight of `analyze_log` (emitted when more than one
timestamp candidate was collected). -/
def rangeIns (content : List Char) : List String :=
  let ts := logTimestamps content
  if ts.length > 1 then
    ["Time range: " ++ String.mk (ts.head?.getD (S "N/A")) ++ " to " ++
      String.mk (ts.getLast?.getD (S "N/A"))]
  else []

/-- Formatting of one sampled error line: `  {i+1}: {line}`, the line byte
sliced to `[0..100]` with a trailing `...` when it is longer than 100
bytes.  `none` models the Rust panic when byte 100 is not a character
boundary. -/
def fmtErr (i : Nat) (e : List Char) : Option String :=
  if utf8Len e > 100 then
    (takeBytes 100 e).map
      (fun t => "  " ++ toString (i + 1) ++ ": " ++ String.mk t ++ "...")
  else some ("  " ++ toString (i + 1) ++ ": " ++ String.mk e)

/-- `mapM` over `Option`, written out so that it unfolds definitionally:
the loop that pushes formatted error insights, aborting at the first
panic. -/
def mapMO {α β : Type} (f : α → Option β) : List α → Option (List β)
  | [] => some []
  | a :: l =>
    match f a with
    | none => none
    | some b =>
      match mapMO f l with
      | none => none
      | some bs => some (b :: bs)

/-- The sampled error lines: the first three when more than three errors
were collected (`&errors[0..3]`), otherwise all of them. -/
def errSample (content : List Char) : List (List Char) :=
  if (logErrors content).length > 3 then (logErrors content).take 3
  else logErrors content

/-- The error insights of `analyze_log`: the total-count insight followed
by the formatted samples; `none` models the panic. -/
def errBlock (content : List Char) : Option (List String) :=
  if logErrors content ≠ [] then
    (mapMO (fun p => fmtErr p.1 p.2) (errSample content).enum).map
      (fun outs =>
        ("Sample errors found: " ++ toString (logErrors content).length ++
          " total") :: outs)
  else some []

/-- `TextAnalyzer::analyze_log`; `none` exactly when the Rust original
panics slicing a sampled error line at byte 100. -/
def analyze_log (content : List Char) : Option FileSummary :=
  let (line_count, word_count, char_count) := basic_stats content
  (errBlock content).map (fun errIns =>
    { file_type := FileType.Log
      line_count := line_count
      word_count := word_count
      char_count := char_count
      key_insights := levelsIns content ++ rangeIns content ++ errIns
      statistics :=
        [("unique_timestamps", toString (distinctCount (logTimestamps content)))] })

/-- Function-name extraction of `analyze_rust_code` for one line: under the
`starts_with("fn ") || contains(" fn ")` guard, the text between the first
occurrence of `fn ` anywhere in the trimmed line and the next `(`, trimmed;
no record when no `(` follows. -/
def fnOfLine (line : List Char) : Option (List Char) :=
  let trimmed := rustTrim line
  if (S "fn ").isPrefixOf trimmed ∨ containsSub (S " fn ") trimmed then
    match findSub (S "fn ") trimmed with
    | some i =>
      let namePart := trimmed.drop (i + 3)
      match namePart.findIdx? (· == '(') with
      | some j => some (rustTrim (namePart.take j))
      | none => none
    | none => none
  else none

/-- Struct-name extraction of `analyze_rust_code` for one line: the second
whitespace-delimited token of a trimmed line starting with `struct `. -/
def structOfLine (line : List Char) : Option (List Char) :=
  let trimmed := rustTrim line
  if (S "struct ").isPrefixOf trimmed then (splitWs trimmed)[1]? else none

/-- Enum-name extraction of `analyze_rust_code` for one line. -/
def enumOfLine (line : List Char) : Option (List Char) :=
  let trimmed := rustTrim line
  if (S "enum ").isPrefixOf trimmed then (splitWs trimmed)[1]? else none

/-- Import extraction of `analyze_rust_code`: the whole trimmed line when
it starts with `use `. -/
def importOfLine (line : List Char) : Option (List Char) :=
  let trimmed := rustTrim line
  if (S "use ").isPrefixOf trimmed then some trimmed else none

/-- Comment-line test of `analyze_rust_code`: the trimmed line starts with
`//` or `/*`. -/
def isCommentLine (line : List Char) : Bool :=
  (S "//").isPrefixOf (rustTrim line) || (S "/*").isPrefixOf (rustTrim line)

/-- TODO/FIXME test of `analyze_rust_code`: the uppercased trimmed line
contains `TODO` or `FIXME`. -/
def isTodoLine (line : List Char) : Bool :=
  containsSub (S "TODO") ((rustTrim line).map Char.toUpper) ||
    containsSub (S "FIXME") ((rustTrim line).map Char.toUpper)

/-- `TextAnalyzer::analyze_rust_code`. -/
def analyze_rust_code (content : List Char) : FileSummary :=
  let (line_count, word_count, char_count) := basic_stats content
  let functions := (rustLines content).filterMap fnOfLine
  let structs := (rustLines content).filterMap structOfLine
  let enums := (rustLines content).filterMap enumOfLine
  let imports := (rustLines content).filterMap importOfLine
  let comments := (rustLines content).countP isCommentLine
  let todo_count := (rustLines content).countP isTodoLine
  let insights :=
    (if functions ≠ [] then
      ["Functions (" ++ toString functions.length ++ "): " ++
        String.intercalate ", " ((functions.take 5).map String.mk)]
     else []) ++
    (if structs ≠ [] then
      ["Structs: " ++ String.intercalate ", " (structs.map String.mk)]
     else []) ++
    (if enums ≠ [] then
      ["Enums: " ++ String.intercalate ", " (enums.map String.mk)]
     else []) ++
    (if todo_count > 0 then
      ["TODOs/FIXMEs found: " ++ toString todo_count]
     else [])
  let ratio :=
    if line_count > 0 then fmtRatio1 (comments * 100) line_count
    else fmtRatio1 0 1
  { file_type := FileType.RustCode
    line_count := line_count
    word_count := word_count
    char_count := char_count
    key_insights := insights
    statistics :=
      [("functions", toString functions.length),
       ("structs", toString structs.length),
       ("enums", toString enums.length),
       ("imports", toString imports.length),
       ("comment_ratio", ratio ++ "%")] }

/-- The dispatch of `main`: the classified kind selects one analyzer, the
`Unknown` kind falling back to `analyze_text` (after a printed notice that
is not part of the summary). -/
def runAnalysis (ft : FileType) (content : List Char) : Option FileSummary :=
  match ft with
  | FileType.Text => some (analyze_text content)
  | FileType.Markdown => some (analyze_markdown content)
  | FileType.Log => analyze_log content
  | FileType.RustCode => some (analyze_rust_code content)
  | FileType.Unknown => some (analyze_text content)

/-- Specification-side count of line-terminator-delimited segments: the
number of newline characters, plus one more segment when the content does
not end with a newline (and zero segments for empty content). -/
def lineSegCount (content : List Char) : Nat :=
  if content = [] then 0
  else
    content.countP (· == '\n') +
      (if content.getLast? = some '\n' then 0 else 1)

/-- Specification-side count of maximal whitespace-delimited non-empty
runs, as a left-to-right scan: a run starts at every non-whitespace
character that is at the start or preceded by whitespace.  The flag records
whether the previous character was whitespace (or the start). -/
def wsRunCount : List Char → Bool → Nat
  | [], _ => 0
  | c :: rest, prevWs =>
    (if prevWs ∧ ¬rustIsWhitespace c then 1 else 0) +
      wsRunCount rest (rustIsWhitespace c)

/-- Specification-side word count: the number of maximal
whitespace-delimited non-empty runs. -/
def maxRunCount (content : List Char) : Nat := wsRunCount content true

/-- Specification-side function-name extraction, following the claim's
words: the text between the first occurrence of `fn ` anywhere in the
trimmed line and the next `(` after it, trimmed; none when no `(`
follows that occurrence. -/
def fnNameSpec (trimmed : List Char) : Option (List Char) :=
  match findSub (S "fn ") trimmed with
  | some i =>
    let namePart := trimmed.drop (i + 3)
    match namePart.findIdx? (· == '(') with
    | some j => some (rustTrim (namePart.take j))
    | none => none
  | none => none

/-- Concrete log content on which the Rust log analyzer panics: one error
line of 101 UTF-8 bytes (`ERROR x` followed by 47 copies of the two-byte
character `é`) whose byte 100 falls inside a character. -/
def c1Content : List Char := S "ERROR x" ++ List.replicate 47 'é'

/-- Concrete log content whose single error line has 56 characters but 106
UTF-8 bytes, with byte 100 on a character boundary: the code truncates it
although it is not longer than 100 characters. -/
def c4CexContent : List Char := S "ERROR " ++ List.replicate 50 'é'

/-- Short log content with one ASCII error line (used as a witness input). -/
def c4WitContent : List Char := S "ERROR bad"

/-- The summary the log analyzer produces for `c4WitContent`. -/
def c4WitSummary : FileSummary :=
  { file_type := FileType.Log
    line_count := 1
    word_count := 2
    char_count := 9
    key_insights := ["Log levels: ERROR: 1", "Sample errors found: 1 total",
      "  1: ERROR bad"]
    statistics := [("unique_timestamps", "0")] }

/-- The summary the log analyzer produces for the content `a b`. -/
def c2WitSummary : FileSummary :=
  { file_type := FileType.Log
    line_count := 1
    word_count := 2
    char_count := 3
    key_insights := []
    statistics := [("unique_timestamps", "0")] }

/-- The markdown test content of claim C5. -/
def c5Content : List Char :=
  S "# Header\n\nSome content with [link](url) and ![image](img.jpg)\n\n```code```"

/-- The source-code test content of claim C6. -/
def c6Content : List Char := S "fn foo() \x7b\x7d\nstruct Bar;\n// note\nTODO fix"

/-- The single (error) line of `c4CexContent`. -/
def c4CexLine : List Char := S "ERROR " ++ List.replicate 50 'é'

/-- The summary the log analyzer produces for `c4CexContent`. -/
def c4CexSummary : FileSummary :=
  { file_type := FileType.Log
    line_count := 1
    word_count := 2
    char_count := 56
    key_insights := ["Log levels: ERROR: 1", "Sample errors found: 1 total",
      "  1: ERROR " ++ String.mk (List.replicate 47 'é') ++ "..."]
    statistics := [("unique_timestamps", "0")] }

/-- Claim C1 (code side): the log analyzer does not complete on every
content — on `c1Content` the Rust code panics slicing the sampled error
line at byte 100, which is not a character boundary; the embedding returns
`none` there. -/
theorem c1_log_analyzer_panics : analyze_log c1Content = none := by decide

/-- Claim C5: on the markdown test content the statistics are
`headers = 1`, `links = 2 ≥ 1`, `images = 1 ≥ 1`, `code_blocks = 0`; and for
every content the `code_blocks` statistic is `floor(n / 2)` where `n` is the
number of lines whose trimmed form starts with three backticks. -/
theorem c5_markdown_stats (content : List Char) :
    (analyze_markdown c5Content).statistics =
      [("headers", "1"), ("links", "2"), ("images", "1"), ("code_blocks", "0")] ∧
    1 ≤ mdLinks c5Content ∧ 1 ≤ mdImages c5Content ∧
    statLookup "code_blocks" (analyze_markdown content).statistics =
      some (toString (((rustLines content).filter
        (fun l => (S "```").isPrefixOf (rustTrim l))).length / 2)) := by
  refine ⟨by decide, by decide, by decide, ?_⟩
  simp [analyze_markdown, basic_stats, statLookup, List.find?, mdFences,
    List.countP_eq_length_filter]

/-- Claim C6 (counterexample): on the C6 test content the recorded struct
name is `Bar;` — the second whitespace-delimited token keeps the trailing
semicolon — and not `Bar` as the claim states. -/
theorem c6_counterexample :
    (rustLines c6Content).filterMap structOfLine = [S "Bar;"] ∧
    (splitWs (rustTrim (S "struct Bar;")))[1]? = some (S "Bar;") ∧
    S "Bar;" ≠ S "Bar" ∧
    "Structs: Bar;" ∈ (analyze_rust_code c6Content).key_insights ∧
    "Structs: Bar" ∉ (analyze_rust_code c6Content).key_insights := by decide

/-- Claim C6 (amended): on the C6 test content the analyzer reports
`functions = 1` with name `foo`, `structs = 1` with recorded name `Bar;`
(the second whitespace-delimited token, trailing semicolon included),
`comment_ratio = 25.0%`, and a TODO/FIXME insight with count 1. -/
theorem c6_rust_code_eval :
    statLookup "functions" (analyze_rust_code c6Content).statistics = some "1" ∧
    statLookup "structs" (analyze_rust_code c6Content).statistics = some "1" ∧
    statLookup "comment_ratio" (analyze_rust_code c6Content).statistics =
      some "25.0%" ∧
    (analyze_rust_code c6Content).key_insights =
      ["Functions (1): foo", "Structs: Bar;", "TODOs/FIXMEs found: 1"] := by
  decide

/-- Claim C7: the classifier is a total pure function on the extension
table: `txt`, `md`, `log`, `rs` map to their kinds, everything else —
including a missing extension and the case-mismatched `TXT` — maps to
`Unknown`, and every input yields one of the five kinds. -/
theorem c7_classifier_total (o : Option String) (e : String)
    (h1 : e ≠ "txt") (h2 : e ≠ "md") (h3 : e ≠ "log") (h4 : e ≠ "rs") :
    from_extension (some "txt") = FileType.Text ∧
    from_extension (some "md") = FileType.Markdown ∧
    from_extension (some "log") = FileType.Log ∧
    from_extension (some "rs") = FileType.RustCode ∧
    from_extension none = FileType.Unknown ∧
    from_extension (some "TXT") = FileType.Unknown ∧
    from_extension (some e) = FileType.Unknown ∧
    (from_extension o = FileType.Text ∨ from_extension o = FileType.Markdown ∨
     from_extension o = FileType.Log ∨ from_extension o = FileType.RustCode ∨
     from_extension o = FileType.Unknown) := by
  refine ⟨rfl, rfl, rfl, rfl, rfl, rfl, ?_, ?_⟩
  · simp [from_extension, h1, h2, h3, h4]
  · cases hft : from_extension o <;> simp

/-- Witness for C7 at the extension `html` (and the total-output part at
`some "txt"`). -/
theorem c7_classifier_total_witness :
    from_extension (some "txt") = FileType.Text ∧
    from_extension (some "md") = FileType.Markdown ∧
    from_extension (some "log") = FileType.Log ∧
    from_extension (some "rs") = FileType.RustCode ∧
    from_extension none = FileType.Unknown ∧
    from_extension (some "TXT") = FileType.Unknown ∧
    from_extension (some "html") = FileType.Unknown ∧
    (from_extension (some "txt") = FileType.Text ∨
     from_extension (some "txt") = FileType.Markdown ∨
     from_extension (some "txt") = FileType.Log ∨
     from_extension (some "txt") = FileType.RustCode ∨
     from_extension (some "txt") = FileType.Unknown) :=
  c7_classifier_total (some "txt") "html" (by decide) (by decide) (by decide)
    (by decide)

/-- Claim C8: on empty content the plain-text analyzer returns zero counts,
both averages formatted as `0.0`, and no insights; in general a zero word
count yields `avg_word_length = 0.0` and a zero line count yields
`avg_line_length = 0.0` rather than a fault. -/
theorem c8_zero_denominators (content : List Char) :
    analyze_text (S "") =
      { file_type := FileType.Text
        line_count := 0
        word_count := 0
        char_count := 0
        key_insights := []
        statistics := [("avg_word_length", "0.0"), ("avg_line_length", "0.0")] } ∧
    ((splitWs content).length = 0 →
      statLookup "avg_word_length" (analyze_text content).statistics =
        some "0.0") ∧
    ((rustLines content).length = 0 →
      statLookup "avg_line_length" (analyze_text content).statistics =
        some "0.0") := by
  refine ⟨by decide, fun hw => ?_, fun hl => ?_⟩
  · simp [analyze_text, basic_stats, statLookup, List.find?, hw, fmtRatio1]
    rfl
  · simp [analyze_text, basic_stats, statLookup, List.find?, hl, fmtRatio1]
    rfl

/-- Witness for C8 at the empty content (zero words and zero lines). -/
theorem c8_zero_denominators_witness :
    statLookup "avg_word_length" (analyze_text (S "")).statistics =
      some "0.0" ∧
    statLookup "avg_line_length" (analyze_text (S "")).statistics =
      some "0.0" :=
  ⟨(c8_zero_denominators (S "")).2.1 (by decide),
   (c8_zero_denominators (S "")).2.2 (by decide)⟩

/-- Claim C9: when the extension classifies as `Unknown`, the dispatch runs
the plain-text analyzer, so the fallback summary is field-for-field the
plain-text summary and its kind is `Text`; and no summary returned by the
dispatch ever carries the `Unknown` kind. -/
theorem c9_unknown_fallback (ext : Option String) (content : List Char)
    (ft : FileType) (s : FileSummary)
    (h1 : from_extension ext = FileType.Unknown)
    (h2 : runAnalysis ft content = some s) :
    runAnalysis (from_extension ext) content = some (analyze_text content) ∧
    (analyze_text content).file_type = FileType.Text ∧
    s.file_type ≠ FileType.Unknown := by
  refine ⟨by rw [h1]; rfl, rfl, ?_⟩
  cases ft with
  | Text => simp [runAnalysis] at h2; subst h2; exact fun hc => nomatch hc
  | Markdown => simp [runAnalysis] at h2; subst h2; exact fun hc => nomatch hc
  | Log =>
    simp only [runAnalysis, analyze_log, basic_stats] at h2
    obtain ⟨a, _, rfl⟩ := Option.map_eq_some'.1 h2
    exact fun hc => nomatch hc
  | RustCode => simp [runAnalysis] at h2; subst h2; exact fun hc => nomatch hc
  | Unknown => simp [runAnalysis] at h2; subst h2; exact fun hc => nomatch hc

/-- Witness for C9 at extension `xyz` and the markdown analyzer run on
`hi`. -/
theorem c9_unknown_fallback_witness :
    runAnalysis (from_extension (some "xyz")) (S "hi") =
      some (analyze_text (S "hi")) ∧
    (analyze_text (S "hi")).file_type = FileType.Text ∧
    (analyze_markdown (S "hi")).file_type ≠ FileType.Unknown :=
  c9_unknown_fallback (some "xyz") (S "hi") FileType.Markdown
    (analyze_markdown (S "hi")) (by decide) rfl

/-- Claim C10: under the guard (trimmed line starts with `fn ` or contains
` fn `), the recorded function name is the text between the first
occurrence of `fn ` anywhere in the trimmed line and the next `(` after
it, trimmed — even when that occurrence sits inside a longer token such as
`tfn ` — and nothing is recorded when no `(` follows. -/
theorem c10_fn_name_extraction (line : List Char)
    (h : (S "fn ").isPrefixOf (rustTrim line) ∨
      containsSub (S " fn ") (rustTrim line)) :
    fnOfLine line = fnNameSpec (rustTrim line) ∧
    fnOfLine (S " tfn a fn foo() ") = some (S "a fn foo") ∧
    fnOfLine (S "tfn x fn y") = none := by
  refine ⟨?_, by decide, by decide⟩
  simp only [fnOfLine, fnNameSpec]
  rw [if_pos h]

/-- Witness for C10 at a line whose first `fn ` occurrence lies inside the
token `tfn`. -/
theorem c10_fn_name_extraction_witness :
    fnOfLine (S " tfn a fn foo() ") =
      fnNameSpec (rustTrim (S " tfn a fn foo() ")) ∧
    fnOfLine (S " tfn a fn foo() ") = some (S "a fn foo") ∧
    fnOfLine (S "tfn x fn y") = none :=
  c10_fn_name_extraction (S " tfn a fn foo() ") (by decide)

theorem splitNl_ne_nil (l : List Char) : splitNl l ≠ [] := by
  cases l with
  | nil => simp [splitNl]
  | cons c rest =>
    simp only [splitNl]
    split
    · simp
    · cases h : splitNl rest <;> simp [h]

theorem splitNl_eq_nil_nil {l : List Char} (h : splitNl l = [[]]) : l = [] := by
  cases l with
  | nil => rfl
  | cons c rest =>
    simp only [splitNl] at h
    split at h
    · have := splitNl_ne_nil rest
      simp at h
      exact absurd h this
    · cases hs : splitNl rest with
      | nil => exact absurd hs (splitNl_ne_nil rest)
      | cons s ss => rw [hs] at h; simp at h

theorem splitNl_length (l : List Char) :
    (splitNl l).length = l.countP (· == '\n') + 1 := by
  induction l with
  | nil => rfl
  | cons c rest ih =>
    simp only [splitNl, List.countP_cons]
    by_cases h : c = '\n'
    · subst h
      simp [ih]
    · rw [if_neg h]
      cases hs : splitNl rest with
      | nil => exact absurd hs (splitNl_ne_nil rest)
      | cons s ss =>
        rw [hs] at ih
        simp only [List.length_cons] at ih ⊢
        simp [h, ih]

theorem getLast?_cons_of_ne {α : Type} (a : α) {r : List α} (h : r ≠ []) :
    (a :: r).getLast? = r.getLast? := by
  cases r with
  | nil => exact absurd rfl h
  | cons b r2 => rw [List.getLast?_cons_cons]

theorem rustLines_nil : rustLines [] = [] := rfl

theorem rustLines_cons_nl (r : List Char) :
    (rustLines ('\n' :: r)).length = 1 + (rustLines r).length := by
  obtain ⟨s, ss, hs⟩ := List.exists_cons_of_ne_nil (splitNl_ne_nil r)
  have hsplit : splitNl ('\n' :: r) = [] :: splitNl r := by
    simp [splitNl]
  simp only [rustLines, hsplit, hs]
  rw [List.getLast?_cons_cons]
  cases hgl : (s :: ss).getLast? with
  | none => simp at hgl
  | some last =>
    by_cases hl : last = []
    · simp [hl, stripCr]
      omega
    · simp [hl, stripCr, List.length_append]
      omega

theorem rustLines_cons_ne (c : Char) (r : List Char) (hc : c ≠ '\n') :
    (rustLines (c :: r)).length = if r = [] then 1 else (rustLines r).length := by
  obtain ⟨s, ss, hs⟩ := List.exists_cons_of_ne_nil (splitNl_ne_nil r)
  have hsplit : splitNl (c :: r) = (c :: s) :: ss := by
    simp only [splitNl, if_neg hc, hs]
  cases ss with
  | nil =>
    by_cases hr : r = []
    · subst hr
      simp only [splitNl] at hs
      simp [rustLines, hsplit, hs]
    · have hsne : s ≠ [] := by
        intro h0
        subst h0
        exact hr (splitNl_eq_nil_nil hs)
      simp [rustLines, hsplit, hs, hsne, hr]
  | cons s2 ss2 =>
    have hrne : r ≠ [] := by
      intro h0
      subst h0
      simp only [splitNl] at hs
      simp at hs
    rw [if_neg hrne]
    simp only [rustLines, hsplit, hs]
    rw [List.getLast?_cons_cons, List.getLast?_cons_cons]
    cases hgl : (s2 :: ss2).getLast? with
    | none => simp at hgl
    | some last =>
      by_cases hl : last = []
      · simp [hl]
      · simp [hl, List.length_append]

theorem rustLines_length (l : List Char) :
    (rustLines l).length = lineSegCount l := by
  induction l with
  | nil => rfl
  | cons c rest ih =>
    by_cases h : c = '\n'
    · subst h
      rw [rustLines_cons_nl]
      by_cases hr : rest = []
      · subst hr
        decide
      · have : ('\n' :: rest).getLast? = rest.getLast? := getLast?_cons_of_ne _ hr
        simp only [lineSegCount, List.countP_cons, this, ih]
        simp [lineSegCount, hr]
        omega
    · rw [rustLines_cons_ne c rest h]
      by_cases hr : rest = []
      · subst hr
        simp [lineSegCount, List.getLast?_singleton, h]
      · have hgl : (c :: rest).getLast? = rest.getLast? := getLast?_cons_of_ne _ hr
        rw [if_neg hr, ih]
        simp only [lineSegCount, List.countP_cons, hgl, hr]
        simp [h, hr]

theorem splitWs_ws (c : Char) (r : List Char) (h : rustIsWhitespace c = true) :
    splitWs (c :: r) = splitWs r := by
  conv_lhs => rw [splitWs.eq_def]
  simp [h]

theorem splitWs_nonws_nil (c : Char) (h : rustIsWhitespace c = false) :
    splitWs [c] = [[c]] := by
  conv_lhs => rw [splitWs.eq_def]
  simp [h]

theorem splitWs_nonws_ws (c d : Char) (r : List Char)
    (hc : rustIsWhitespace c = false) (hd : rustIsWhitespace d = true) :
    splitWs (c :: d :: r) = [c] :: splitWs (d :: r) := by
  conv_lhs => rw [splitWs.eq_def]
  simp [hc, hd]

theorem splitWs_nonws_nonws (c d : Char) (r : List Char)
    (hc : rustIsWhitespace c = false) (hd : rustIsWhitespace d = false) :
    splitWs (c :: d :: r) =
      match splitWs (d :: r) with
      | [] => [[c]]
      | w :: ws2 => (c :: w) :: ws2 := by
  conv_lhs => rw [splitWs.eq_def]
  simp [hc, hd]

theorem splitWs_ne_nil (c : Char) (rest : List Char)
    (h : rustIsWhitespace c = false) : splitWs (c :: rest) ≠ [] := by
  cases rest with
  | nil => rw [splitWs_nonws_nil c h]; simp
  | cons d rest2 =>
    by_cases hd : rustIsWhitespace d = true
    · rw [splitWs_nonws_ws c d rest2 h hd]; simp
    · rw [splitWs_nonws_nonws c d rest2 h (eq_false_of_ne_true hd)]
      cases splitWs (d :: rest2) <;> simp

theorem wsRunCount_flag_irrel (c : Char) (rest : List Char) (b1 b2 : Bool)
    (h : rustIsWhitespace c = true) :
    wsRunCount (c :: rest) b1 = wsRunCount (c :: rest) b2 := by
  simp [wsRunCount, h]

theorem wsRunCount_head_nonws (c : Char) (rest : List Char)
    (h : rustIsWhitespace c = false) :
    wsRunCount (c :: rest) true = 1 + wsRunCount (c :: rest) false := by
  simp [wsRunCount, h]

theorem splitWs_length (l : List Char) : (splitWs l).length = maxRunCount l := by
  induction l with
  | nil => rfl
  | cons c rest ih =>
    by_cases h : rustIsWhitespace c = true
    · rw [splitWs_ws c rest h, ih]
      simp [maxRunCount, wsRunCount, h]
    · have hb : rustIsWhitespace c = false := eq_false_of_ne_true h
      cases rest with
      | nil =>
        rw [splitWs_nonws_nil c hb]
        simp [maxRunCount, wsRunCount, hb]
      | cons d rest2 =>
        by_cases hd : rustIsWhitespace d = true
        · rw [splitWs_nonws_ws c d rest2 hb hd]
          simp only [List.length_cons, ih, maxRunCount]
          conv_rhs => rw [wsRunCount.eq_def]
          simp [hb]
          rw [wsRunCount_flag_irrel d rest2 true false hd]
          omega
        · have hdb : rustIsWhitespace d = false := eq_false_of_ne_true hd
          rw [splitWs_nonws_nonws c d rest2 hb hdb]
          cases hws : splitWs (d :: rest2) with
          | nil => exact absurd hws (splitWs_ne_nil d rest2 hdb)
          | cons w ws2 =>
            have hrhs : maxRunCount (c :: d :: rest2) =
                1 + wsRunCount (d :: rest2) false := by
              simp only [maxRunCount]
              conv_lhs => rw [wsRunCount.eq_def]
              simp [hb]
            rw [hrhs, ← wsRunCount_head_nonws d rest2 hdb]
            rw [hws] at ih
            simp only [maxRunCount] at ih
            simp only [List.length_cons] at ih ⊢
            omega

/-- Claim C2: for every content, every analyzer's summary has `line_count`
equal to the number of line-terminator-delimited segments, `word_count`
equal to the number of maximal whitespace-delimited non-empty runs, and
`char_count` equal to the number of Unicode scalar values, and the three
numbers are identical whichever analyzer produced the summary.  The three
total analyzers are covered unconditionally; the log conjunct covers every
summary that analyzer returns (on the contents where it instead panics —
see C1 — it returns no summary at all). -/
theorem c2_universal_counts (content : List Char) :
    ((analyze_text content).line_count = lineSegCount content ∧
     (analyze_text content).word_count = maxRunCount content ∧
     (analyze_text content).char_count = content.length) ∧
    ((analyze_markdown content).line_count = lineSegCount content ∧
     (analyze_markdown content).word_count = maxRunCount content ∧
     (analyze_markdown content).char_count = content.length) ∧
    ((analyze_rust_code content).line_count = lineSegCount content ∧
     (analyze_rust_code content).word_count = maxRunCount content ∧
     (analyze_rust_code content).char_count = content.length) ∧
    (∀ s : FileSummary, analyze_log content = some s →
      s.line_count = lineSegCount content ∧
      s.word_count = maxRunCount content ∧
      s.char_count = content.length) := by
  have hl := rustLines_length content
  have hw := splitWs_length content
  refine ⟨⟨hl, hw, rfl⟩, ⟨hl, hw, rfl⟩, ⟨hl, hw, rfl⟩, ?_⟩
  intro s h
  simp only [analyze_log, basic_stats] at h
  obtain ⟨a, _, rfl⟩ := Option.map_eq_some'.1 h
  exact ⟨hl, hw, rfl⟩

/-- Witness for C2 at the content `a b` (one line, two words, three
characters), instantiating the log conjunct at the summary the log
analyzer returns there. -/
theorem c2_universal_counts_witness :
    ((analyze_text (S "a b")).line_count = lineSegCount (S "a b") ∧
     (analyze_text (S "a b")).word_count = maxRunCount (S "a b") ∧
     (analyze_text (S "a b")).char_count = (S "a b").length) ∧
    ((analyze_markdown (S "a b")).line_count = lineSegCount (S "a b") ∧
     (analyze_markdown (S "a b")).word_count = maxRunCount (S "a b") ∧
     (analyze_markdown (S "a b")).char_count = (S "a b").length) ∧
    ((analyze_rust_code (S "a b")).line_count = lineSegCount (S "a b") ∧
     (analyze_rust_code (S "a b")).word_count = maxRunCount (S "a b") ∧
     (analyze_rust_code (S "a b")).char_count = (S "a b").length) ∧
    (c2WitSummary.line_count = lineSegCount (S "a b") ∧
     c2WitSummary.word_count = maxRunCount (S "a b") ∧
     c2WitSummary.char_count = (S "a b").length) :=
  ⟨(c2_universal_counts (S "a b")).1,
   (c2_universal_counts (S "a b")).2.1,
   (c2_universal_counts (S "a b")).2.2.1,
   (c2_universal_counts (S "a b")).2.2.2 c2WitSummary (by decide)⟩

theorem char_toNat_ofNat_valid {n : Nat} (h : n.isValidChar) :
    (Char.ofNat n).toNat = n := by
  rw [Char.ofNat, dif_pos h]
  rfl

theorem toLower_toNat_of_upper {c : Char} (h1 : 65 ≤ c.toNat)
    (h2 : c.toNat ≤ 90) : (Char.toLower c).toNat = c.toNat + 32 := by
  simp only [Char.toLower]
  rw [if_pos ⟨h1, h2⟩]
  exact char_toNat_ofNat_valid (Or.inl (by omega))

theorem toLower_eq_self {c : Char} (h : ¬(65 ≤ c.toNat ∧ c.toNat ≤ 90)) :
    Char.toLower c = c := by
  simp only [Char.toLower]
  rw [if_neg h]

theorem toLower_toLower (c : Char) :
    Char.toLower (Char.toLower c) = Char.toLower c := by
  by_cases h : 65 ≤ c.toNat ∧ c.toNat ≤ 90
  · have ht := toLower_toNat_of_upper h.1 h.2
    exact toLower_eq_self (by omega)
  · rw [toLower_eq_self h, toLower_eq_self h]

theorem alpha_toLower {c : Char} (h : rustIsAlphabetic c = true) :
    rustIsAlphabetic (Char.toLower c) = true := by
  by_cases hu : 65 ≤ c.toNat ∧ c.toNat ≤ 90
  · have ht := toLower_toNat_of_upper hu.1 hu.2
    simp only [rustIsAlphabetic, decide_eq_true_eq] at h ⊢
    omega
  · rw [toLower_eq_self hu]
    exact h

theorem normalizeWord_idem (w : List Char) :
    normalizeWord (normalizeWord w) = normalizeWord w := by
  simp only [normalizeWord]
  induction w with
  | nil => rfl
  | cons c cs ih =>
    simp only [List.map_cons, List.filter_cons]
    by_cases h : rustIsAlphabetic (Char.toLower c) = true
    · simp only [h, if_true]
      simp only [List.map_cons, List.filter_cons, toLower_toLower c, h, if_true]
      rw [ih]
    · simp only [h]
      simp [ih]

theorem bump_mem {α : Type} [DecidableEq α] (k : α) (m : List (α × Nat)) :
    ∀ p ∈ bump k m, p.1 = k ∨ ∃ q ∈ m, q.1 = p.1 := by
  induction m with
  | nil =>
    intro p hp
    simp only [bump, List.mem_singleton] at hp
    left
    rw [hp]
  | cons q2 rest ih =>
    intro p hp
    rcases q2 with ⟨k2, c⟩
    simp only [bump] at hp
    split at hp
    · rcases List.mem_cons.1 hp with h1 | h1
      · right; exact ⟨(k2, c), List.mem_cons_self _ _, by rw [h1]⟩
      · right; exact ⟨p, List.mem_cons_of_mem _ h1, rfl⟩
    · rcases List.mem_cons.1 hp with h1 | h1
      · right; exact ⟨(k2, c), List.mem_cons_self _ _, by rw [h1]⟩
      · rcases ih p h1 with h2 | ⟨q3, hq3, hq3e⟩
        · exact Or.inl h2
        · exact Or.inr ⟨q3, List.mem_cons_of_mem _ hq3, hq3e⟩

theorem bump_keys {α : Type} [DecidableEq α] (k : α) (m : List (α × Nat)) :
    (bump k m).map Prod.fst =
      if k ∈ m.map Prod.fst then m.map Prod.fst
      else m.map Prod.fst ++ [k] := by
  induction m with
  | nil => simp [bump]
  | cons q rest ih =>
    rcases q with ⟨k2, c⟩
    simp only [bump]
    by_cases h : k2 = k
    · subst h
      simp
    · rw [if_neg h]
      simp only [List.map_cons, ih]
      by_cases hmem : k ∈ rest.map Prod.fst
      · rw [if_pos hmem, if_pos (by simp [hmem])]
      · rw [if_neg hmem, if_neg (by simp [hmem, Ne.symm h])]
        simp

theorem freqFold_keys (ws : List (List Char)) :
    ∀ (init : List (List Char × Nat)) (p : List Char × Nat),
      p ∈ ws.foldl (fun m w =>
        let cw := normalizeWord w
        if cw ≠ [] ∧ utf8Len cw > 2 then bump cw m else m) init →
      p.1 ∈ init.map Prod.fst ∨
        ∃ w ∈ ws, p.1 = normalizeWord w ∧ 2 < utf8Len p.1 := by
  induction ws with
  | nil => intro init p hp; exact Or.inl (List.mem_map_of_mem _ hp)
  | cons w ws2 ih =>
    intro init p hp
    simp only [List.foldl_cons] at hp
    rcases ih _ p hp with h1 | ⟨w2, hw2, he, hb⟩
    · by_cases hc : normalizeWord w ≠ [] ∧ utf8Len (normalizeWord w) > 2
      · rw [if_pos hc] at h1
        rw [bump_keys] at h1
        by_cases hmem : normalizeWord w ∈ init.map Prod.fst
        · rw [if_pos hmem] at h1
          exact Or.inl h1
        · rw [if_neg hmem] at h1
          rcases List.mem_append.1 h1 with h2 | h2
          · exact Or.inl h2
          · right
            refine ⟨w, List.mem_cons_self _ _, ?_, ?_⟩
            · simpa using h2
            · have : p.1 = normalizeWord w := by simpa using h2
              rw [this]; exact hc.2
      · rw [if_neg hc] at h1
        exact Or.inl h1
    · exact Or.inr ⟨w2, List.mem_cons_of_mem _ hw2, he, hb⟩

theorem freqFold_nodup (ws : List (List Char)) :
    ∀ (init : List (List Char × Nat)),
      (init.map Prod.fst).Nodup →
      ((ws.foldl (fun m w =>
        let cw := normalizeWord w
        if cw ≠ [] ∧ utf8Len cw > 2 then bump cw m else m) init).map
          Prod.fst).Nodup := by
  induction ws with
  | nil => intro init h; exact h
  | cons w ws2 ih =>
    intro init h
    simp only [List.foldl_cons]
    apply ih
    by_cases hc : normalizeWord w ≠ [] ∧ utf8Len (normalizeWord w) > 2
    · rw [if_pos hc, bump_keys]
      by_cases hmem : normalizeWord w ∈ init.map Prod.fst
      · rw [if_pos hmem]; exact h
      · rw [if_neg hmem]
        simp [List.nodup_append, h, hmem]
    · rw [if_neg hc]; exact h

theorem insertDesc_perm {α : Type} (p : α × Nat) (l : List (α × Nat)) :
    List.Perm (insertDesc p l) (p :: l) := by
  induction l with
  | nil => exact List.Perm.refl _
  | cons q rest ih =>
    simp only [insertDesc]
    split
    · exact List.Perm.refl _
    · exact (ih.cons q).trans (List.Perm.swap p q rest)

theorem sortDesc_perm {α : Type} (l : List (α × Nat)) :
    List.Perm (sortDesc l) l := by
  induction l with
  | nil => exact List.Perm.refl _
  | cons p rest ih => exact (insertDesc_perm p (sortDesc rest)).trans (ih.cons p)

theorem insertDesc_sorted {α : Type} (p : α × Nat) (l : List (α × Nat))
    (h : l.Sorted (fun a b => b.2 ≤ a.2)) :
    (insertDesc p l).Sorted (fun a b => b.2 ≤ a.2) := by
  induction l with
  | nil => simp [insertDesc]
  | cons q rest ih =>
    rw [List.sorted_cons] at h
    simp only [insertDesc]
    split
    · rename_i hpq
      rw [List.sorted_cons]
      refine ⟨?_, List.sorted_cons.2 h⟩
      intro b hb
      rcases List.mem_cons.1 hb with h1 | h1
      · rw [h1]; exact le_of_lt hpq
      · exact le_trans (h.1 b h1) (le_of_lt hpq)
    · rename_i hpq
      rw [List.sorted_cons]
      refine ⟨?_, ih h.2⟩
      intro b hb
      rcases List.mem_cons.1 ((insertDesc_perm p rest).mem_iff.1 hb) with h1 | h1
      · rw [h1]; exact Nat.le_of_not_lt hpq
      · exact h.1 b h1

theorem sortDesc_sorted {α : Type} (l : List (α × Nat)) :
    (sortDesc l).Sorted (fun a b => b.2 ≤ a.2) := by
  induction l with
  | nil => simp [sortDesc]
  | cons p rest ih => exact insertDesc_sorted p _ ih

/-- Claim C3 (counterexample): the word `éé` normalizes to itself, has
exactly 2 alphabetic characters, and still appears in the frequency output —
the discard criterion is UTF-8 byte length (4 for `éé`), not alphabetic
character count. -/
theorem c3_counterexample :
    (S "éé", 1) ∈ get_word_frequency (S "éé") ∧
    (normalizeWord (S "éé")).length = 2 ∧
    (∀ c ∈ normalizeWord (S "éé"), rustIsAlphabetic c = true) := by decide

/-- Claim C3 (amended): every output word is the normalization of some
whitespace-delimited token, has UTF-8 byte length greater than 2 (the
amended discard criterion), normalization is idempotent, keys are unique,
and the sequence is sorted by count descending. -/
theorem c3_word_frequency (content : List Char) (p : List Char × Nat)
    (hp : p ∈ get_word_frequency content) :
    (∃ w ∈ splitWs content, p.1 = normalizeWord w) ∧
    2 < utf8Len p.1 ∧
    normalizeWord p.1 = p.1 ∧
    ((get_word_frequency content).map Prod.fst).Nodup ∧
    (get_word_frequency content).Sorted (fun a b => b.2 ≤ a.2) := by
  simp only [get_word_frequency] at hp ⊢
  have hp2 := (sortDesc_perm _).mem_iff.1 hp
  rcases freqFold_keys (splitWs content) [] p hp2 with h1 | ⟨w, hw, he, hb⟩
  · simp at h1
  refine ⟨⟨w, hw, he⟩, hb, ?_, ?_, sortDesc_sorted _⟩
  · rw [he, normalizeWord_idem]
  · rw [List.Perm.nodup_iff ((sortDesc_perm _).map Prod.fst)]
    exact freqFold_nodup (splitWs content) [] (by simp)

/-- Witness for C3 at the content `abc`. -/
theorem c3_word_frequency_witness :
    (∃ w ∈ splitWs (S "abc"), (S "abc") = normalizeWord w) ∧
    2 < utf8Len (S "abc") ∧
    normalizeWord (S "abc") = S "abc" ∧
    ((get_word_frequency (S "abc")).map Prod.fst).Nodup ∧
    (get_word_frequency (S "abc")).Sorted (fun a b => b.2 ≤ a.2) :=
  c3_word_frequency (S "abc") (S "abc", 1) (by decide)

theorem mapMO_forall2 {α β : Type} (f : α → Option β) :
    ∀ (l : List α) (r : List β), mapMO f l = some r →
      List.Forall₂ (fun a b => f a = some b) l r := by
  intro l
  induction l with
  | nil =>
    intro r h
    simp only [mapMO, Option.some.injEq] at h
    subst h
    exact List.Forall₂.nil
  | cons a l2 ih =>
    intro r h
    simp only [mapMO] at h
    cases hfa : f a with
    | none => rw [hfa] at h; simp at h
    | some b =>
      rw [hfa] at h
      cases hml : mapMO f l2 with
      | none => rw [hml] at h; simp at h
      | some bs =>
        rw [hml] at h
        simp only [Option.some.injEq] at h
        subst h
        exact List.Forall₂.cons hfa (ih bs hml)


/-- Claim C4 (counterexample): the sampled error line of `c4CexContent`
has 56 characters — not longer than 100 characters — yet its insight is
emitted truncated with a trailing ellipsis, because the code truncates by
UTF-8 byte length (106 bytes here), not by characters. -/
theorem c4_counterexample :
    analyze_log c4CexContent = some c4CexSummary ∧
    logErrors c4CexContent = [c4CexLine] ∧
    c4CexLine.length ≤ 100 ∧
    ("  1: " ++ String.mk c4CexLine) ∉ c4CexSummary.key_insights ∧
    ("  1: ERROR " ++ String.mk (List.replicate 47 'é') ++ "...")
      ∈ c4CexSummary.key_insights := by decide

/-- Claim C4 (amended): whenever the log analyzer returns a summary and at
least one error line was found, the insights contain one insight with the
total error count followed by up to 3 error lines in encounter order,
numbered from 1, each truncated to its first 100 UTF-8 bytes with a
trailing ellipsis exactly when the line is longer than 100 bytes. -/
theorem c4_error_insights (content : List Char) (s : FileSummary)
    (h : analyze_log content = some s) (hne : logErrors content ≠ []) :
    ∃ outs,
      s.key_insights = levelsIns content ++ rangeIns content ++
        (("Sample errors found: " ++ toString (logErrors content).length ++
          " total") :: outs) ∧
      List.Forall₂ (fun (p : Nat × List Char) (o : String) =>
        (100 < utf8Len p.2 → ∃ t, takeBytes 100 p.2 = some t ∧
          o = "  " ++ toString (p.1 + 1) ++ ": " ++ String.mk t ++ "...") ∧
        (utf8Len p.2 ≤ 100 →
          o = "  " ++ toString (p.1 + 1) ++ ": " ++ String.mk p.2))
        ((logErrors content).take 3).enum outs := by
  simp only [analyze_log, basic_stats] at h
  obtain ⟨errIns, herr, rfl⟩ := Option.map_eq_some'.1 h
  simp only [errBlock, if_pos hne] at herr
  obtain ⟨outs, houts, rfl⟩ := Option.map_eq_some'.1 herr
  have hsample : errSample content = (logErrors content).take 3 := by
    simp only [errSample]
    split
    · rfl
    · rename_i hgt
      rw [List.take_of_length_le (Nat.le_of_not_lt hgt)]
  have hf2 := mapMO_forall2 (fun p : Nat × List Char => fmtErr p.1 p.2) _ _ houts
  rw [hsample] at hf2
  refine ⟨outs, rfl, hf2.imp ?_⟩
  intro p o hpo
  constructor
  · intro hlen
    simp only [fmtErr, if_pos hlen] at hpo
    obtain ⟨t, ht, rfl⟩ := Option.map_eq_some'.1 hpo
    exact ⟨t, ht, rfl⟩
  · intro hlen
    simp only [fmtErr, if_neg (Nat.not_lt.2 hlen)] at hpo
    simp only [Option.some.injEq] at hpo
    rw [hpo]

/-- Witness for C4 at the content `ERROR bad`. -/
theorem c4_error_insights_witness :
    ∃ outs,
      c4WitSummary.key_insights = levelsIns c4WitContent ++
        rangeIns c4WitContent ++
        (("Sample errors found: " ++ toString (logErrors c4WitContent).length ++
          " total") :: outs) ∧
      List.Forall₂ (fun (p : Nat × List Char) (o : String) =>
        (100 < utf8Len p.2 → ∃ t, takeBytes 100 p.2 = some t ∧
          o = "  " ++ toString (p.1 + 1) ++ ": " ++ String.mk t ++ "...") ∧
        (utf8Len p.2 ≤ 100 →
          o = "  " ++ toString (p.1 + 1) ++ ": " ++ String.mk p.2))
        ((logErrors c4WitContent).take 3).enum outs :=
  c4_error_insights c4WitContent c4WitSummary (by decide) (by decide)
